import Mathlib

/-!
Shallow embedding of the core pipeline of `src/generate_site.py` (codexRSS):
the MIME text extractor, the text normalizer, the Gemini response contract
parser, the image prompt builder and the per-message orchestration step.

Python strings are modelled as `List Char` (Python `len`/slicing count code
points, as `List Char` does).  Python's whitespace class `\s` and `str.strip`
are modelled by the ASCII whitespace characters, which is the fragment
exercised by this code base.  Fallible Python code (code that can raise) is
modelled with `Except Unit`.
-/

set_option maxRecDepth 20000

namespace CodexRSS

/-- ASCII whitespace, modelling Python's `\s` / `str.strip` character class. -/
def pyWs (c : Char) : Bool :=
  c = ' ' || c = '\t' || c = '\n' || c = '\r' || c = '\x0b' || c = '\x0c'

/-- Model of `re.sub(r"\s+", " ", text)`: every maximal whitespace run is
replaced by a single space. -/
def squeezeWs : List Char → List Char
  | [] => []
  | [c] => if pyWs c then [' '] else [c]
  | c :: d :: rest =>
    if pyWs c then
      if pyWs d then squeezeWs (d :: rest)
      else ' ' :: squeezeWs (d :: rest)
    else c :: squeezeWs (d :: rest)

/-- Model of Python `str.lstrip()`. -/
def pyStripLeft (l : List Char) : List Char := l.dropWhile pyWs

/-- Model of Python `str.rstrip()`. -/
def pyStripRight (l : List Char) : List Char := (l.reverse.dropWhile pyWs).reverse

/-- Model of Python `str.strip()`. -/
def pyStrip (l : List Char) : List Char := pyStripRight (pyStripLeft l)

/-- `re.sub(r"\s+", " ", text).strip()` — the whitespace collapse used by
`normalize_text`, `clean_html_to_text` and `build_image_prompt`. -/
def pyCollapse (l : List Char) : List Char := pyStrip (squeezeWs l)

/-- Model of `"\n".join(fragments)`. -/
def joinNL : List (List Char) → List Char
  | [] => []
  | [t] => t
  | t :: u :: rest => t ++ '\n' :: joinNL (u :: rest)

/-- Python `needle in haystack` on strings (substring containment). -/
def containsSeq (needle : List Char) : List Char → Bool
  | [] => needle.isEmpty
  | c :: rest => needle.isPrefixOf (c :: rest) || containsSeq needle rest

/-! ## `decode_body` (generate_site.py lines 93–97)

`base64.urlsafe_b64decode` translates `-`/`_` to `+`/`/` and then calls the
CPython `binascii.a2b_base64` loop in non-strict mode: characters outside the
alphabet are skipped, `=` is counted as padding only once two data characters
of the current quadruple have been seen, and a leftover partial quadruple at
the end raises `binascii.Error`.  `decode(…, "utf-8", errors="ignore")` drops
undecodable byte sequences (maximal-subpart skipping). -/

/-- Value of a base64 alphabet character after the URL-safe translation
(`-` ↦ 62 like `+`, `_` ↦ 63 like `/`); `none` for non-alphabet characters. -/
def b64val (c : Char) : Option Nat :=
  if 'A' ≤ c ∧ c ≤ 'Z' then some (c.toNat - 65)
  else if 'a' ≤ c ∧ c ≤ 'z' then some (c.toNat - 71)
  else if '0' ≤ c ∧ c ≤ '9' then some (c.toNat + 4)
  else if c = '+' ∨ c = '-' then some 62
  else if c = '/' ∨ c = '_' then some 63
  else none

/-- The `binascii.a2b_base64` loop (non-strict mode).  `quad` is the position
inside the current quadruple, `left` the pending bits, `pads` the count of
padding characters seen since the last data character.  `.error ()` models the
`binascii.Error` raised on a leftover partial quadruple. -/
def a2b_loop : List Char → Nat → Nat → Nat → List Nat → Except Unit (List Nat)
  | [], quad, _, _, acc => if quad = 0 then .ok acc.reverse else .error ()
  | ch :: rest, quad, left, pads, acc =>
    if ch = '=' then
      if 2 ≤ quad then
        if 4 ≤ quad + pads + 1 then .ok acc.reverse
        else a2b_loop rest quad left (pads + 1) acc
      else a2b_loop rest quad left pads acc
    else
      match b64val ch with
      | none => a2b_loop rest quad left pads acc
      | some v =>
        match quad with
        | 0 => a2b_loop rest 1 v 0 acc
        | 1 => a2b_loop rest 2 (v % 16) 0 ((left * 4 + v / 16) :: acc)
        | 2 => a2b_loop rest 3 (v % 4) 0 ((left * 16 + v / 4) :: acc)
        | _ => a2b_loop rest 0 0 0 ((left * 64 + v) :: acc)

/-- Is `b` a UTF-8 continuation byte? -/
def utf8Cont (b : Nat) : Bool := 0x80 ≤ b && b ≤ 0xBF

/-- UTF-8 decoding with `errors="ignore"`: invalid sequences are dropped
(maximal valid subpart skipped, the offending byte reconsidered), never an
error.  Overlong encodings and surrogates are rejected as CPython does. -/
def utf8DecodeIgnore : List Nat → List Char
  | [] => []
  | b :: rest =>
    if b < 0x80 then Char.ofNat b :: utf8DecodeIgnore rest
    else if 0xC2 ≤ b && b ≤ 0xDF then
      match rest with
      | [] => []
      | b2 :: rest2 =>
        if utf8Cont b2 then
          Char.ofNat ((b - 0xC0) * 64 + (b2 - 0x80)) :: utf8DecodeIgnore rest2
        else utf8DecodeIgnore (b2 :: rest2)
    else if 0xE0 ≤ b && b ≤ 0xEF then
      match rest with
      | [] => []
      | [b2] =>
        if (if b = 0xE0 then 0xA0 ≤ b2 && b2 ≤ 0xBF
            else if b = 0xED then 0x80 ≤ b2 && b2 ≤ 0x9F
            else utf8Cont b2) then []
        else utf8DecodeIgnore [b2]
      | b2 :: b3 :: rest3 =>
        if (if b = 0xE0 then 0xA0 ≤ b2 && b2 ≤ 0xBF
            else if b = 0xED then 0x80 ≤ b2 && b2 ≤ 0x9F
            else utf8Cont b2) then
          if utf8Cont b3 then
            Char.ofNat ((b - 0xE0) * 4096 + (b2 - 0x80) * 64 + (b3 - 0x80)) ::
              utf8DecodeIgnore rest3
          else utf8DecodeIgnore (b3 :: rest3)
        else utf8DecodeIgnore (b2 :: b3 :: rest3)
    else if 0xF0 ≤ b && b ≤ 0xF4 then
      match rest with
      | [] => []
      | [b2] =>
        if (if b = 0xF0 then 0x90 ≤ b2 && b2 ≤ 0xBF
            else if b = 0xF4 then 0x80 ≤ b2 && b2 ≤ 0x8F
            else utf8Cont b2) then []
        else utf8DecodeIgnore [b2]
      | [b2, b3] =>
        if (if b = 0xF0 then 0x90 ≤ b2 && b2 ≤ 0xBF
            else if b = 0xF4 then 0x80 ≤ b2 && b2 ≤ 0x8F
            else utf8Cont b2) then
          if utf8Cont b3 then [] else utf8DecodeIgnore [b3]
        else utf8DecodeIgnore [b2, b3]
      | b2 :: b3 :: b4 :: rest4 =>
        if (if b = 0xF0 then 0x90 ≤ b2 && b2 ≤ 0xBF
            else if b = 0xF4 then 0x80 ≤ b2 && b2 ≤ 0x8F
            else utf8Cont b2) then
          if utf8Cont b3 then
            if utf8Cont b4 then
              Char.ofNat ((b - 0xF0) * 262144 + (b2 - 0x80) * 4096 +
                (b3 - 0x80) * 64 + (b4 - 0x80)) :: utf8DecodeIgnore rest4
            else utf8DecodeIgnore (b4 :: rest4)
          else utf8DecodeIgnore (b3 :: b4 :: rest4)
        else utf8DecodeIgnore (b2 :: b3 :: b4 :: rest4)
    else utf8DecodeIgnore rest

/-- `decode_body` (lines 93–97): early return on empty input, padding computed
as `'=' * (-len(data) % 4)`, URL-safe base64 decode, lossy UTF-8 decode.
`.error ()` models the `binascii.Error` that `urlsafe_b64decode` can raise. -/
def decode_body (data : List Char) : Except Unit (List Char) :=
  if data.isEmpty then .ok []
  else
    match a2b_loop (data ++ List.replicate ((4 - data.length % 4) % 4) '=') 0 0 0 [] with
    | .ok bytes => .ok (utf8DecodeIgnore bytes)
    | .error e => .error e

/-! ## `clean_html_to_text` (lines 83–90)

`<script…>…</script>` and `<style…>…</style>` blocks are removed first
(case-insensitively, across newlines), then all remaining `<…>` tags, then
HTML entities are unescaped, then whitespace is collapsed.  `html.unescape`'s
full named-entity table is modelled by its numeric references and the five
standard named entities, the fragment relevant to this code base. -/

/-- Lower-case an ASCII letter. -/
def lcChar (c : Char) : Char :=
  if 'A' ≤ c ∧ c ≤ 'Z' then Char.ofNat (c.toNat + 32) else c

/-- Case-insensitive prefix test (`pat` given already lower-cased). -/
def ciIsPref : List Char → List Char → Bool
  | [], _ => true
  | _ :: _, [] => false
  | p :: ps, c :: cs => (lcChar c = p) && ciIsPref ps cs

/-- First index at which lower-cased `pat` occurs in `l`, if any. -/
def ciFind (pat : List Char) : List Char → Option Nat
  | [] => if pat.isEmpty then some 0 else none
  | c :: rest =>
    if ciIsPref pat (c :: rest) then some 0
    else (ciFind pat rest).map (· + 1)

/-- One `re.sub(r"<TAG.*?>.*?</TAG>", " ", ·, flags=re.S|re.I)` pass for a
given lower-case tag name: scan left to right; a match needs `<TAG`, a later
`>`, and a later `</TAG>`; the whole span is replaced by one space. -/
def removeTagBlocks (openPat closePat : List Char) : Nat → List Char → List Char
  | 0, l => l
  | fuel + 1, l =>
    match l with
    | [] => []
    | c :: rest =>
      if ciIsPref openPat (c :: rest) then
        let afterOpen := (c :: rest).drop openPat.length
        match afterOpen.findIdx? (· = '>') with
        | none => c :: removeTagBlocks openPat closePat fuel rest
        | some i =>
          let body := afterOpen.drop (i + 1)
          match ciFind closePat body with
          | none => c :: removeTagBlocks openPat closePat fuel rest
          | some j =>
            ' ' :: removeTagBlocks openPat closePat fuel (body.drop (j + closePat.length))
      else c :: removeTagBlocks openPat closePat fuel rest

/-- `re.sub(r"<[^>]+>", " ", ·)`: each `<`, at least one non-`>` character and
a closing `>` is replaced by one space. -/
def removeTags : Nat → List Char → List Char
  | 0, l => l
  | fuel + 1, l =>
    match l with
    | [] => []
    | c :: rest =>
      if c = '<' then
        let inner := rest.takeWhile (· ≠ '>')
        if inner.isEmpty then c :: removeTags fuel rest
        else
          match rest.drop inner.length with
          | '>' :: after => ' ' :: removeTags fuel after
          | _ => c :: removeTags fuel rest
      else c :: removeTags fuel rest

/-- Hexadecimal digit value, if any. -/
def hexVal (c : Char) : Option Nat :=
  if '0' ≤ c ∧ c ≤ '9' then some (c.toNat - 48)
  else if 'a' ≤ c ∧ c ≤ 'f' then some (c.toNat - 87)
  else if 'A' ≤ c ∧ c ≤ 'F' then some (c.toNat - 55)
  else none

/-- Digits of a numeric character reference folded to a code point. -/
def foldDigits (base : Nat) (ds : List Nat) : Nat := ds.foldl (fun a d => a * base + d) 0

/-- Model of `html.unescape` restricted to numeric references and the core
named entities `amp`, `lt`, `gt`, `quot`, `apos` (with semicolon). -/
def htmlUnescape : Nat → List Char → List Char
  | 0, l => l
  | fuel + 1, l =>
    match l with
    | [] => []
    | '&' :: rest =>
      if "amp;".toList.isPrefixOf rest then '&' :: htmlUnescape fuel (rest.drop 4)
      else if "lt;".toList.isPrefixOf rest then '<' :: htmlUnescape fuel (rest.drop 3)
      else if "gt;".toList.isPrefixOf rest then '>' :: htmlUnescape fuel (rest.drop 3)
      else if "quot;".toList.isPrefixOf rest then '"' :: htmlUnescape fuel (rest.drop 5)
      else if "apos;".toList.isPrefixOf rest then '\'' :: htmlUnescape fuel (rest.drop 5)
      else
        match rest with
        | '#' :: 'x' :: r =>
          let hs := r.takeWhile (fun c => (hexVal c).isSome)
          if hs.isEmpty then '&' :: htmlUnescape fuel rest
          else
            match r.drop hs.length with
            | ';' :: after =>
              Char.ofNat (foldDigits 16 (hs.map (fun c => (hexVal c).getD 0))) ::
                htmlUnescape fuel after
            | _ => '&' :: htmlUnescape fuel rest
        | '#' :: r =>
          let ds := r.takeWhile Char.isDigit
          if ds.isEmpty then '&' :: htmlUnescape fuel rest
          else
            match r.drop ds.length with
            | ';' :: after =>
              Char.ofNat (foldDigits 10 (ds.map (fun c => c.toNat - 48))) ::
                htmlUnescape fuel after
            | _ => '&' :: htmlUnescape fuel rest
        | _ => '&' :: htmlUnescape fuel rest
    | c :: rest => c :: htmlUnescape fuel rest

/-- `clean_html_to_text` (lines 83–90). -/
def clean_html_to_text (raw_html : List Char) : List Char :=
  let noScript := removeTagBlocks "<script".toList "</script>".toList raw_html.length raw_html
  let noStyle := removeTagBlocks "<style".toList "</style>".toList noScript.length noScript
  let noTags := removeTags noStyle.length noStyle
  pyCollapse (htmlUnescape noTags.length noTags)

/-! ## The MIME `Part` tree and `extract_text_from_payload` (lines 100–113)

A Gmail `Part` has a `mimeType`, an optional base64url `body.data` (absent
data modelled as the empty string, as `body.get("data", "")` yields) and a
list of child parts (`payload.get("parts", []) or []`). -/

inductive Part where
  | mk (mimeType : List Char) (bodyData : List Char) (parts : List Part)
deriving Repr

/-- The `mimeType` field. -/
def Part.mimeType : Part → List Char
  | .mk mt _ _ => mt

/-- The `body.data` field (empty when absent). -/
def Part.bodyData : Part → List Char
  | .mk _ bd _ => bd

/-- The `parts` field. -/
def Part.children : Part → List Part
  | .mk _ _ ps => ps

mutual

/-- `extract_text_from_payload` (lines 100–113): a `text/plain` part decodes
its body; a `text/html` part decodes and cleans it; any other part recurses
into its children, joins the non-blank results with newlines and strips the
result.  An exception from `decode_body` propagates (`.error`). -/
def extract_text_from_payload : Part → Except Unit (List Char)
  | .mk mt bd ps =>
    if mt = "text/plain".toList then decode_body bd
    else if mt = "text/html".toList then
      match decode_body bd with
      | .ok s => .ok (clean_html_to_text s)
      | .error e => .error e
    else
      match extractParts ps with
      | .ok texts => .ok (pyStrip (joinNL (texts.filter fun t => !(pyStrip t).isEmpty)))
      | .error e => .error e

/-- The `for part in parts: texts.append(extract_text_from_payload(part))`
loop, in document order, propagating the first exception. -/
def extractParts : List Part → Except Unit (List (List Char))
  | [] => .ok []
  | p :: rest =>
    match extract_text_from_payload p with
    | .error e => .error e
    | .ok t =>
      match extractParts rest with
      | .ok ts => .ok (t :: ts)
      | .error e => .error e

end

/-! ## `normalize_text` (lines 206–210) -/

/-- The fixed truncation marker `"\n\n[內容已截斷]"`. -/
def truncMarker : List Char := "\n\n[內容已截斷]".toList

/-- `normalize_text(text, max_chars=12000)`: collapse whitespace, strip, and
hard-truncate with the marker appended when over the cap. -/
def normalize_text (text : List Char) (max_chars : Nat := 12000) : List Char :=
  let t := pyCollapse text
  if max_chars < t.length then t.take max_chars ++ truncMarker else t

/-! ## `extract_category` (lines 213–217) and `build_image_prompt` (249–259) -/

/-- The opening delimiters of `r"^[\[【(]"`. -/
def catOpeners : List Char := ['[', '【', '(']

/-- The closing delimiters of `extract_category`'s `[\]）】\)]` class. -/
def catClosers : List Char := [']', '）', '】', ')']

/-- The closing delimiters of `build_image_prompt`'s `[\]】)]` class
(note: unlike `extract_category`, no full-width `）`). -/
def promptClosers : List Char := [']', '】', ')']

/-- `extract_category` (lines 213–217): `re.match(r"^[\[【(]([^\]）】\)]+)[\]）】\)]\s*", subject)`
— a leading opener, a non-empty greedy run of non-closers, a closer; the
stripped group is the category, else `"未分類"`. -/
def extract_category (subject : List Char) : List Char :=
  match subject with
  | o :: rest =>
    if o ∈ catOpeners then
      let grp := rest.takeWhile (fun c => c ∉ catClosers)
      if grp.isEmpty then "未分類".toList
      else
        match rest.drop grp.length with
        | c :: _ => if c ∈ catClosers then pyStrip grp else "未分類".toList
        | [] => "未分類".toList
    else "未分類".toList
  | [] => "未分類".toList

/-- First closer position reachable by `.*?` (which does not cross a newline)
in `re.sub(r"^[\[【(].*?[\]】)]\s*", "", subject)`. -/
def findCloser : List Char → Option Nat
  | [] => none
  | c :: rest =>
    if c ∈ promptClosers then some 0
    else if c = '\n' then none
    else (findCloser rest).map (· + 1)

/-- The subject-tag stripping of `build_image_prompt` (line 250): an anchored
match of one opener, a minimal newline-free run, one closer, and trailing
whitespace is removed; otherwise the subject is unchanged. -/
def strip_category_tag (subject : List Char) : List Char :=
  match subject with
  | o :: rest =>
    if o ∈ catOpeners then
      match findCloser rest with
      | some i => (rest.drop (i + 1)).dropWhile pyWs
      | none => subject
    else subject
  | [] => subject

/-- The summary cleaning of `build_image_prompt` (lines 251–253): collapse
whitespace and hard-truncate at 400 characters, no marker. -/
def capSummary (summary : List Char) : List Char :=
  let c := pyCollapse summary
  if 400 < c.length then c.take 400 else c

/-- `build_image_prompt` (lines 249–259). -/
def build_image_prompt (subject summary : List Char) : List Char :=
  "Minimal, soft, calm Apple News-style illustration. ".toList ++
  "Abstract, gentle gradients, no text, no logos, no watermark, no people. ".toList ++
  "Inspired by: ".toList ++ pyStrip (strip_category_tag subject) ++ ". ".toList ++
  "Summary: ".toList ++ capSummary summary

/-! ## Strict JSON (`json.loads`) model

`gemini_translate_and_summarize` recovers a structured record with
`json.loads`.  A faithful strict-JSON parser is embedded: JSON whitespace,
objects, arrays, strings with escapes, numbers (kept as their lexeme, since
no behaviour in scope depends on numeric value), `true`/`false`/`null` and
Python's default `NaN`/`Infinity` extensions.  `none` models
`json.JSONDecodeError`. -/

inductive Json where
  | null
  | bool (b : Bool)
  | num (lexeme : List Char)
  | str (s : List Char)
  | arr (elems : List Json)
  | obj (fields : List (List Char × Json))
deriving Repr

/-- JSON whitespace (`' '`, `'\t'`, `'\n'`, `'\r'`). -/
def jsonWs (c : Char) : Bool := c = ' ' || c = '\t' || c = '\n' || c = '\r'

/-- Skip JSON whitespace. -/
def skipJsonWs (l : List Char) : List Char := l.dropWhile jsonWs

/-- Body of a JSON string after the opening quote: strict mode (raw control
characters rejected), standard escapes, `\uXXXX`. -/
def jsonStringBody : List Char → List Char → Option (List Char × List Char)
  | [], _ => none
  | '"' :: r, acc => some (acc.reverse, r)
  | '\\' :: e :: r, acc =>
    if e = '"' then jsonStringBody r ('"' :: acc)
    else if e = '\\' then jsonStringBody r ('\\' :: acc)
    else if e = '/' then jsonStringBody r ('/' :: acc)
    else if e = 'b' then jsonStringBody r ('\x08' :: acc)
    else if e = 'f' then jsonStringBody r ('\x0c' :: acc)
    else if e = 'n' then jsonStringBody r ('\n' :: acc)
    else if e = 'r' then jsonStringBody r ('\r' :: acc)
    else if e = 't' then jsonStringBody r ('\t' :: acc)
    else if e = 'u' then
      match r with
      | h1 :: h2 :: h3 :: h4 :: r' =>
        match hexVal h1, hexVal h2, hexVal h3, hexVal h4 with
        | some a, some b, some c, some d =>
          jsonStringBody r' (Char.ofNat (a * 4096 + b * 256 + c * 16 + d) :: acc)
        | _, _, _, _ => none
      | _ => none
    else none
  | ['\\'], _ => none
  | c :: r, acc => if c.toNat < 0x20 then none else jsonStringBody r (c :: acc)

/-- The exponent part of a JSON number (optional). -/
def jsonExpPart (acc l : List Char) : Option (List Char × List Char) :=
  match l with
  | c :: r =>
    if c = 'e' ∨ c = 'E' then
      let (sgn, r1) :=
        match r with
        | s :: r' => if s = '+' ∨ s = '-' then ([s], r') else (([] : List Char), r)
        | [] => ([], r)
      let ds := r1.takeWhile Char.isDigit
      if ds.isEmpty then none
      else some (acc ++ c :: (sgn ++ ds), r1.drop ds.length)
    else some (acc, l)
  | [] => some (acc, l)

/-- The fraction part of a JSON number (optional), then the exponent. -/
def jsonFracPart (acc l : List Char) : Option (List Char × List Char) :=
  match l with
  | '.' :: r =>
    let ds := r.takeWhile Char.isDigit
    if ds.isEmpty then none
    else jsonExpPart (acc ++ '.' :: ds) (r.drop ds.length)
  | _ => jsonExpPart acc l

/-- A JSON number: `-?(0|[1-9][0-9]*)(\.[0-9]+)?([eE][+-]?[0-9]+)?`,
returned as its lexeme. -/
def jsonNumber (l : List Char) : Option (List Char × List Char) :=
  let (neg, l1) :=
    match l with
    | '-' :: r => ((['-'] : List Char), r)
    | _ => ([], l)
  match l1 with
  | '0' :: r => jsonFracPart (neg ++ ['0']) r
  | c :: r =>
    if c.isDigit then
      let ds := r.takeWhile Char.isDigit
      jsonFracPart (neg ++ c :: ds) (r.drop ds.length)
    else none
  | [] => none

/-- Object members after `'{'` (non-empty case): `"key" : value`, separated by
commas, ended by `'}'`.  The value parser is passed in, so recursion is
structural on `fuel` alone. -/
def jsonObjLoop (pv : List Char → Option (Json × List Char)) :
    Nat → List Char → List (List Char × Json) → Option (Json × List Char)
  | 0, _, _ => none
  | fuel + 1, l, acc =>
    match skipJsonWs l with
    | '"' :: r =>
      match jsonStringBody r [] with
      | none => none
      | some (key, r1) =>
        match skipJsonWs r1 with
        | ':' :: r2 =>
          match pv r2 with
          | none => none
          | some (v, r3) =>
            match skipJsonWs r3 with
            | ',' :: r4 => jsonObjLoop pv fuel r4 (acc ++ [(key, v)])
            | '}' :: r4 => some (Json.obj (acc ++ [(key, v)]), r4)
            | _ => none
        | _ => none
    | _ => none

/-- Array elements after `'['` (non-empty case). -/
def jsonArrLoop (pv : List Char → Option (Json × List Char)) :
    Nat → List Char → List Json → Option (Json × List Char)
  | 0, _, _ => none
  | fuel + 1, l, acc =>
    match pv l with
    | none => none
    | some (v, r) =>
      match skipJsonWs r with
      | ',' :: r1 => jsonArrLoop pv fuel r1 (acc ++ [v])
      | ']' :: r1 => some (Json.arr (acc ++ [v]), r1)
      | _ => none

/-- A JSON value (leading whitespace allowed); `fuel` bounds nesting depth. -/
def jsonValue : Nat → List Char → Option (Json × List Char)
  | 0, _ => none
  | fuel + 1, l =>
    match skipJsonWs l with
    | [] => none
    | c :: r =>
      if c = '{' then
        match skipJsonWs r with
        | '}' :: r' => some (Json.obj [], r')
        | _ => jsonObjLoop (jsonValue fuel) (r.length + 1) r []
      else if c = '[' then
        match skipJsonWs r with
        | ']' :: r' => some (Json.arr [], r')
        | _ => jsonArrLoop (jsonValue fuel) (r.length + 1) r []
      else if c = '"' then
        (jsonStringBody r []).map (fun p => (Json.str p.1, p.2))
      else if c = 't' then
        if "rue".toList.isPrefixOf r then some (.bool true, r.drop 3) else none
      else if c = 'f' then
        if "alse".toList.isPrefixOf r then some (.bool false, r.drop 4) else none
      else if c = 'n' then
        if "ull".toList.isPrefixOf r then some (.null, r.drop 3) else none
      else if c = 'N' then
        if "aN".toList.isPrefixOf r then some (.num "NaN".toList, r.drop 2) else none
      else if c = 'I' then
        if "nfinity".toList.isPrefixOf r then some (.num "Infinity".toList, r.drop 7)
        else none
      else if c = '-' ∧ "Infinity".toList.isPrefixOf r then
        some (.num "-Infinity".toList, r.drop 8)
      else
        (jsonNumber (c :: r)).map (fun p => (Json.num p.1, p.2))

/-- `json.loads`: a single value with only whitespace around it. -/
def json_loads (l : List Char) : Option Json :=
  match jsonValue (l.length + 1) l with
  | some (v, rest) => if (skipJsonWs rest).isEmpty then some v else none
  | none => none

/-! ## `gemini_translate_and_summarize` (lines 116–203), response handling

The HTTP call itself is an external collaborator; it yields a list of
candidates, each with a `finishReason` and a list of part texts.  Everything
from line 156 on is modelled: the safety fallback, the empty-output fallback,
the code-fence stripping and the `parse_loose_json` recovery chain.  The
result is the Python value the function returns (a parsed JSON value or a
synthesized degraded dict); `.error ()` models a `json.JSONDecodeError`
escaping the function. -/

structure Candidate where
  finishReason : List Char
  partTexts : List (List Char)

/-- A degraded `AIResult` dict (lines 159–163, 170–174, 199–203). -/
def degradedResult (text summary : List Char) : Json :=
  Json.obj [("language".toList, Json.str "unknown".toList),
    ("translated_text".toList, Json.str text),
    ("summary_zh_tw".toList, Json.str summary)]

/-- Diagnostic placeholder for a safety block (line 162). -/
def safetyMsg : List Char := "（內容因安全性限制無法摘要）".toList

/-- Diagnostic placeholder for empty model output (line 173). -/
def emptyMsg : List Char := "（內容摘要失敗）".toList

/-- Diagnostic placeholder for unparsable model output (line 202). -/
def parseFailMsg : List Char := "（內容摘要解析失敗）".toList

/-- The candidate loop (lines 156–166): a candidate with `finishReason ==
"SAFETY"` short-circuits (`none`); otherwise all part texts are concatenated
in order. -/
def collectCandidates : List Candidate → Option (List Char)
  | [] => some []
  | c :: rest =>
    if c.finishReason = "SAFETY".toList then none
    else
      match collectCandidates rest with
      | none => none
      | some s => some (c.partTexts.flatten ++ s)

/-- Code-fence stripping (lines 177–178): `re.sub(r"^```(?:json)?\s*", "", ·)`
then `re.sub(r"\s*```$", "", ·)`. -/
def stripCodeFences (t : List Char) : List Char :=
  let t1 :=
    if "```json".toList.isPrefixOf t then (t.drop 7).dropWhile pyWs
    else if "```".toList.isPrefixOf t then (t.drop 3).dropWhile pyWs
    else t
  if "```".toList.isSuffixOf t1 then pyStripRight (t1.take (t1.length - 3))
  else t1

/-- Index of the first occurrence of `c` (`str.find`), if any. -/
def findChar (c : Char) (t : List Char) : Option Nat := t.findIdx? (· = c)

/-- Index of the last occurrence of `c` (`str.rfind`), if any. -/
def rfindChar (c : Char) (t : List Char) : Option Nat :=
  (t.reverse.findIdx? (· = c)).map (fun i => t.length - 1 - i)

/-- `parse_loose_json` (lines 180–188): strict parse; on failure parse the
first-`{`-to-last-`}` slice if it exists, whose failure (or the absence of
such a slice: the bare `raise`) propagates as `.error`. -/
def parse_loose_json (t : List Char) : Except Unit Json :=
  match json_loads t with
  | some v => .ok v
  | none =>
    match findChar '{' t, rfindChar '}' t with
    | some s, some e =>
      if s < e then
        match json_loads ((t.take (e + 1)).drop s) with
        | some v => .ok v
        | none => .error ()
      else .error ()
    | _, _ => .error ()

/-- `re.search(r"\{.*\}", ·, flags=re.S)`: the greedy span from the first `{`
to the last `}`, when the latter follows the former. -/
def braceSpan (t : List Char) : Option (List Char) :=
  match findChar '{' t, rfindChar '}' t with
  | some s, some e => if s < e then some ((t.take (e + 1)).drop s) else none
  | _, _ => none

/-- The parse chain of lines 190–203: `parse_loose_json` on the fence-stripped
text; on `JSONDecodeError`, retry on the brace span — that second call is NOT
guarded in the source, so its failure escapes (`.error`) — and only when no
brace span exists is the degraded parse-failure dict returned. -/
def geminiParseChain (text output_text : List Char) : Except Unit Json :=
  match parse_loose_json output_text with
  | .ok v => .ok v
  | .error _ =>
    match braceSpan output_text with
    | some span => parse_loose_json span
    | none => .ok (degradedResult text parseFailMsg)

/-- The response handling of `gemini_translate_and_summarize` from line 155 on:
safety fallback, strip, empty-output fallback, fence stripping, parse chain. -/
def gemini_translate_and_summarize (text : List Char) (candidates : List Candidate) :
    Except Unit Json :=
  match collectCandidates candidates with
  | none => .ok (degradedResult text safetyMsg)
  | some out =>
    let output_text := pyStrip out
    if output_text.isEmpty then .ok (degradedResult text emptyMsg)
    else geminiParseChain text (stripCodeFences output_text)

/-! ## The per-message pipeline step of `main` (lines 540–571)

The loop body for one message, with the two collaborators abstracted exactly
at the interface the spec gives them: the AI invoker (a function from the
normalized text to the parsed dict's two fields, `dict.get` defaulting absent
fields to the empty string) and the image generator (assumed to succeed and
write the file, per the idempotency-gate contract).  Rendering-only fields of
the record (`source`, `thumb_html`) are out of the claims' scope and omitted.
`.error` models an exception from `extract_text_from_payload`. -/

structure AIDict where
  translated_text : List Char
  summary_zh_tw : List Char

structure EntryRecord where
  id : List Char
  subject : List Char
  from_ : List Char
  date_ : List Char
  original_text : List Char
  translated_text : List Char
  summary_zh_tw : List Char
  category : List Char
  image_rel : List Char
deriving Repr

/-- Placeholder summary `"(無摘要)"` (line 566). -/
def noSummaryMsg : List Char := "(無摘要)".toList

structure MsgOutcome where
  aiRequested : Bool
  imageInvoked : Bool
  fileExistsAfter : Bool
  record : Option EntryRecord

/-- One iteration of the message loop (lines 540–571): extract, normalize,
skip when empty, invoke the AI, gate the image on on-disk presence
(`images/{id}.png`), and append the record with its defaulted fields. -/
def process_message (msg_id subject from_ date_ : List Char) (payload : Part)
    (ai : List Char → AIDict) (enable_images : Bool) (file_exists : Bool) :
    Except Unit MsgOutcome :=
  match extract_text_from_payload payload with
  | .error e => .error e
  | .ok raw0 =>
    let raw := normalize_text raw0
    if raw.isEmpty then .ok ⟨false, false, file_exists, none⟩
    else
      let aiR := ai raw
      let translated := normalize_text aiR.translated_text
      let summary := normalize_text aiR.summary_zh_tw 4000
      let image_rel :=
        if enable_images then "images/".toList ++ msg_id ++ ".png".toList else []
      .ok ⟨true, enable_images && !file_exists,
        (if enable_images then true else file_exists),
        some {
          id := msg_id, subject := subject, from_ := from_, date_ := date_,
          original_text := raw,
          translated_text := if translated.isEmpty then raw else translated,
          summary_zh_tw := if summary.isEmpty then noSummaryMsg else summary,
          category := extract_category subject,
          image_rel := image_rel }⟩

/-! ## Spec-side definitions for the extractor claim

These follow the specification's words ("output equals the concatenation
(newline-joined, trimmed) of decoded leaf bodies in document order", with
empty fragments dropped) for comparison against `extract_text_from_payload`. -/

mutual

/-- The `text/plain` leaf bodies of a tree in document order (a `text/plain`
node is a leaf to the extractor: its children are ignored). -/
def specPlainBodies : Part → List (List Char)
  | .mk mt bd ps =>
    if mt = "text/plain".toList then [bd]
    else if mt = "text/html".toList then []
    else specPlainBodiesList ps

/-- Document-order concatenation over a list of sibling parts. -/
def specPlainBodiesList : List Part → List (List Char)
  | [] => []
  | p :: rest => specPlainBodies p ++ specPlainBodiesList rest

end

mutual

/-- No node of the tree is recognized as a `text/html` leaf. -/
def allPlainB : Part → Bool
  | .mk mt _ ps =>
    if mt = "text/plain".toList then true
    else if mt = "text/html".toList then false
    else allPlainListB ps

/-- `allPlainB` over a list of sibling parts. -/
def allPlainListB : List Part → Bool
  | [] => true
  | p :: rest => allPlainB p && allPlainListB rest

end

/-- The body decodes (if it decodes) to a string with no leading or trailing
whitespace. -/
def trimOKB (b : List Char) : Bool :=
  match decode_body b with
  | .ok s => pyStrip s == s
  | .error _ => true

/-- Every decoded `text/plain` leaf body carries no leading or trailing
whitespace. -/
def trimmedBodiesB (p : Part) : Bool :=
  (specPlainBodies p).all trimOKB

/-- Decode all bodies in document order, propagating the first failure --
the reference order in which the extractor itself meets them. -/
def decodeAll : List (List Char) → Except Unit (List (List Char))
  | [] => .ok []
  | b :: rest =>
    match decode_body b with
    | .error e => .error e
    | .ok s =>
      match decodeAll rest with
      | .error e => .error e
      | .ok ss => .ok (s :: ss)

/-- Newline-join the non-empty fragments (the claim's "newline-joined …
with empty fragments dropped"). -/
def joinNonEmpty (bs : List (List Char)) : List Char :=
  joinNL (bs.filter fun b => !b.isEmpty)

/-- Join two already-joined blocks: drop an empty side, otherwise splice with
a newline.  (`joinNonEmpty` is a fold of this operation.) -/
def glue (a b : List Char) : List Char :=
  if a.isEmpty then b else if b.isEmpty then a else a ++ '\n' :: b

/-- The specification's formula for the extractor on an all-`text/plain`
tree: the newline-joined, trimmed concatenation of the decoded leaf bodies in
document order, empty fragments dropped. -/
def specExtract (p : Part) : Except Unit (List Char) :=
  match decodeAll (specPlainBodies p) with
  | .ok bs => .ok (pyStrip (joinNonEmpty bs))
  | .error e => .error e

/-- The tag `"【Tech】"` of the image-prompt claim. -/
def techTag : List Char := "【Tech】".toList

/-- The example subject `"【Tech】Big news today"` of the image-prompt claim. -/
def techSubject : List Char := "【Tech】Big news today".toList

/-- The prompt built from `techSubject` up to (excluding) the embedded
summary: style preamble, cleaned subject, and the `"Summary: "` label. -/
def techPromptPre : List Char :=
  ("Minimal, soft, calm Apple News-style illustration. " ++
   "Abstract, gentle gradients, no text, no logos, no watermark, no people. " ++
   "Inspired by: Big news today. Summary: ").toList

/-- Invariant of whitespace-collapsed text: every whitespace character is a
space and is not followed by another whitespace character.  (Shaped like
`squeezeWs` to share its induction structure.) -/
def wsClean : List Char → Bool
  | [] => true
  | [c] => !pyWs c || c == ' '
  | c :: d :: rest => (!pyWs c || (c == ' ' && !pyWs d)) && wsClean (d :: rest)

/-! # Theorems -/

/-! ## C4 — normalizer truncation -/

/-- C4: for every text whose whitespace-collapsed, trimmed form is longer
than `max_len` characters, `normalize_text` returns a string of length
`max_len` plus the marker length whose first `max_len` characters are the
first `max_len` characters of the collapsed source. -/
theorem normalize_text_truncation (text : List Char) (max_len : Nat)
    (h : max_len < (pyCollapse text).length) :
    (normalize_text text max_len).length = max_len + truncMarker.length ∧
    (normalize_text text max_len).take max_len = (pyCollapse text).take max_len := by
  unfold normalize_text
  rw [if_pos h]
  constructor
  · rw [List.length_append, List.length_take]
    omega
  · rw [List.take_append_of_le_length, List.take_take, Nat.min_self]
    rw [List.length_take]
    omega

/-- Witness for C4 at a concrete input. -/
theorem normalize_text_truncation_witness :
    2 < (pyCollapse "abcd".toList).length ∧
    ((normalize_text "abcd".toList 2).length = 2 + truncMarker.length ∧
      (normalize_text "abcd".toList 2).take 2 = (pyCollapse "abcd".toList).take 2) :=
  ⟨by decide, normalize_text_truncation "abcd".toList 2 (by decide)⟩

/-! ## C1 — the response contract parser is not total

Contrary to the contract, when the stripped output does contain a `{…}` span
but strict parsing of the whole text, of the first-`{`-to-last-`}` slice and
of the regex span all fail, the second (unguarded) `parse_loose_json` call at
line 196 re-raises `json.JSONDecodeError` past the boundary instead of
returning the degraded result; the degraded parse-failure result is reached
only when no `{…}` span exists at all. -/

/-- C1: at the concrete model output `"{bad}"` (one non-safety candidate) the
function raises (`.error`), while for brace-free unparsable output it does
return the degraded result — so the advertised total fallback is dead code
exactly on the unparsable-span path. -/
theorem gemini_parse_chain_raises_on_bad_span :
    gemini_translate_and_summarize "hello".toList
        [⟨"STOP".toList, [['{', 'b', 'a', 'd', '}']]⟩] = .error () ∧
    gemini_translate_and_summarize "hello".toList
        [⟨"STOP".toList, ["no json at all".toList]⟩]
      = .ok (degradedResult "hello".toList parseFailMsg) :=
  ⟨rfl, rfl⟩

/-! ## C6 — all candidates safety-blocked yields the degraded result -/

/-- C6: if the response has at least one candidate and every candidate is
safety-blocked, the invoker returns the degraded `AIResult` with the
safety-block diagnostic summary instead of aborting. -/
theorem all_safety_blocked_degrades (text : List Char) (cands : List Candidate)
    (hne : cands ≠ [])
    (hall : ∀ c ∈ cands, c.finishReason = "SAFETY".toList) :
    gemini_translate_and_summarize text cands = .ok (degradedResult text safetyMsg) := by
  match cands, hne with
  | c :: rest, _ =>
    have hc : c.finishReason = "SAFETY".toList := hall c (List.mem_cons_self c rest)
    simp [gemini_translate_and_summarize, collectCandidates, hc]

/-- Witness for C6 at a concrete response. -/
theorem all_safety_blocked_degrades_witness :
    gemini_translate_and_summarize "hi".toList [⟨"SAFETY".toList, []⟩]
      = .ok (degradedResult "hi".toList safetyMsg) :=
  all_safety_blocked_degrades "hi".toList [⟨"SAFETY".toList, []⟩]
    (by simp)
    (by intro c hc; rw [List.mem_singleton] at hc; subst hc; rfl)

/-! ## C7 — empty extracted text skips the message entirely -/

/-- C7: when the extracted, normalized text of a message is empty, no AI
request is made, no image is generated, and no record is emitted. -/
theorem empty_message_skipped (msg_id subject from_ date_ : List Char) (payload : Part)
    (ai : List Char → AIDict) (enable_images file_exists : Bool) (t : List Char)
    (hx : extract_text_from_payload payload = .ok t)
    (hempty : normalize_text t = []) :
    process_message msg_id subject from_ date_ payload ai enable_images file_exists
      = .ok ⟨false, false, file_exists, none⟩ := by
  unfold process_message
  rw [hx]
  simp [hempty]

/-- Witness for C7: a message whose only part decodes to the empty string. -/
theorem empty_message_skipped_witness :
    process_message "m1".toList "s".toList [] [] (Part.mk "text/plain".toList [] [])
      (fun _ => ⟨[], []⟩) true false = .ok ⟨false, false, false, none⟩ :=
  empty_message_skipped "m1".toList "s".toList [] [] (Part.mk "text/plain".toList [] [])
    (fun _ => ⟨[], []⟩) true false [] rfl rfl

/-! ## C8 — deterministic image path and idempotency gate -/

/-- C8: with image generation enabled, the record's image path is
`images/{id}.png`; the generator is invoked exactly when no file exists at
the resolved path, and after a run the file exists, so a second run for the
same id does not invoke the generator again (exactly one call starting from
an absent file). -/
theorem image_gate_idempotent (msg_id subject from_ date_ : List Char) (payload : Part)
    (ai : List Char → AIDict) (file_exists : Bool) (t : List Char)
    (hx : extract_text_from_payload payload = .ok t)
    (hne : normalize_text t ≠ []) :
    ∃ o1 o2,
      process_message msg_id subject from_ date_ payload ai true file_exists = .ok o1 ∧
      process_message msg_id subject from_ date_ payload ai true o1.fileExistsAfter
        = .ok o2 ∧
      o1.imageInvoked = !file_exists ∧ o1.fileExistsAfter = true ∧
      o2.imageInvoked = false ∧
      ∀ r, o1.record = some r →
        r.image_rel = "images/".toList ++ msg_id ++ ".png".toList := by
  have hne' : (normalize_text t).isEmpty = false := by
    simpa [List.isEmpty_iff] using hne
  have hrun : ∀ fe : Bool, ∃ o,
      process_message msg_id subject from_ date_ payload ai true fe = .ok o ∧
      o.imageInvoked = !fe ∧ o.fileExistsAfter = true ∧
      ∀ r, o.record = some r →
        r.image_rel = "images/".toList ++ msg_id ++ ".png".toList := by
    intro fe
    unfold process_message
    rw [hx]
    simp only [hne', Bool.false_eq_true, if_false]
    refine ⟨_, rfl, ?_, rfl, ?_⟩
    · show (true && !fe) = !fe
      simp
    · intro r hr
      cases hr
      rfl
  obtain ⟨o1, h1, hi1, hf1, hrel⟩ := hrun file_exists
  obtain ⟨o2, h2, hi2, _, _⟩ := hrun o1.fileExistsAfter
  refine ⟨o1, o2, h1, h2, hi1, hf1, ?_, hrel⟩
  rw [hf1] at hi2
  simpa using hi2

/-- Witness for C8 at a concrete message. -/
theorem image_gate_idempotent_witness :
    ∃ o1 o2,
      process_message "m1".toList "s".toList [] []
        (Part.mk "text/plain".toList "aGk".toList [])
        (fun _ => ⟨[], []⟩) true false = .ok o1 ∧
      process_message "m1".toList "s".toList [] []
        (Part.mk "text/plain".toList "aGk".toList [])
        (fun _ => ⟨[], []⟩) true o1.fileExistsAfter = .ok o2 ∧
      o1.imageInvoked = !false ∧ o1.fileExistsAfter = true ∧
      o2.imageInvoked = false ∧
      ∀ r, o1.record = some r →
        r.image_rel = "images/".toList ++ "m1".toList ++ ".png".toList :=
  image_gate_idempotent "m1".toList "s".toList [] []
    (Part.mk "text/plain".toList "aGk".toList []) (fun _ => ⟨[], []⟩) false
    "hi".toList rfl (by decide)

/-! ## C10 — every emitted record has non-empty text fields -/

/-- C10: every record emitted by the per-message pipeline has a non-empty
`original_text`, a non-empty `translated_text` (defaulted to the normalized
original when the AI's is empty) and a non-empty summary (defaulted to the
`"(無摘要)"` placeholder when the AI's is empty). -/
theorem record_fields_nonempty (msg_id subject from_ date_ : List Char) (payload : Part)
    (ai : List Char → AIDict) (enable_images file_exists : Bool)
    (o : MsgOutcome) (r : EntryRecord)
    (ho : process_message msg_id subject from_ date_ payload ai enable_images file_exists
      = .ok o)
    (hr : o.record = some r) :
    r.original_text ≠ [] ∧ r.translated_text ≠ [] ∧ r.summary_zh_tw ≠ [] ∧
    (normalize_text (ai r.original_text).translated_text = [] →
      r.translated_text = r.original_text) ∧
    (normalize_text (ai r.original_text).summary_zh_tw 4000 = [] →
      r.summary_zh_tw = noSummaryMsg) := by
  unfold process_message at ho
  cases hx : extract_text_from_payload payload with
  | error e => rw [hx] at ho; cases ho
  | ok t =>
    rw [hx] at ho
    simp only [] at ho
    by_cases hraw : (normalize_text t).isEmpty
    · rw [if_pos hraw] at ho
      cases ho
      cases hr
    · rw [if_neg hraw] at ho
      cases ho
      cases hr
      have hne : normalize_text t ≠ [] := by
        simpa [List.isEmpty_iff] using hraw
      refine ⟨hne, ?_, ?_, ?_, ?_⟩
      · by_cases h1 : (normalize_text (ai (normalize_text t)).translated_text).isEmpty
        · simpa [h1] using hne
        · simpa [h1] using (by simpa [List.isEmpty_iff] using h1 :
            normalize_text (ai (normalize_text t)).translated_text ≠ [])
      · by_cases h2 : (normalize_text (ai (normalize_text t)).summary_zh_tw 4000).isEmpty
        · simp [h2, noSummaryMsg]
        · simpa [h2] using (by simpa [List.isEmpty_iff] using h2 :
            normalize_text (ai (normalize_text t)).summary_zh_tw 4000 ≠ [])
      · intro h1
        simp [h1]
      · intro h2
        simp [h2]

/-- Witness for C10 at a concrete message. -/
theorem record_fields_nonempty_witness :
    ("hi".toList : List Char) ≠ [] ∧ ("hi".toList : List Char) ≠ [] ∧
    noSummaryMsg ≠ [] ∧
    (normalize_text ((fun (_ : List Char) => (⟨[], []⟩ : AIDict)) "hi".toList).translated_text
        = [] → "hi".toList = "hi".toList) ∧
    (normalize_text ((fun (_ : List Char) => (⟨[], []⟩ : AIDict)) "hi".toList).summary_zh_tw
        4000 = [] → noSummaryMsg = noSummaryMsg) := by
  have h := record_fields_nonempty "m1".toList "s".toList [] []
    (Part.mk "text/plain".toList "aGk".toList []) (fun _ => ⟨[], []⟩) true false
    ⟨true, true, true,
      some { id := "m1".toList, subject := "s".toList, from_ := [], date_ := [],
             original_text := "hi".toList, translated_text := "hi".toList,
             summary_zh_tw := noSummaryMsg, category := "未分類".toList,
             image_rel := "images/m1.png".toList }⟩
    { id := "m1".toList, subject := "s".toList, from_ := [], date_ := [],
      original_text := "hi".toList, translated_text := "hi".toList,
      summary_zh_tw := noSummaryMsg, category := "未分類".toList,
      image_rel := "images/m1.png".toList }
    rfl rfl
  exact h

/-! ## C3 — `decode_body` and missing padding

`decode_body` does compute the missing padding, but it is not total on all
strings: an alphabet-character count congruent to 1 mod 4 (e.g. the input
`"a"`) leaves a one-character quadruple that no amount of `'='` padding can
complete, and `binascii.a2b_base64` raises.  On base64url-alphabet input
whose length is not 1 mod 4 — which includes every valid base64url encoding
with 1–3 padding characters stripped — decoding never raises. -/

/-- Processing alphabet-only characters never errs, resets pending padding,
and advances the quadruple position by the count consumed. -/
theorem a2b_loop_alpha : ∀ (l : List Char), (∀ c ∈ l, (b64val c).isSome) →
    ∀ (q lv : Nat) (acc : List Nat), q < 4 →
    ∃ q' lv' acc',
      (∀ tail, a2b_loop (l ++ tail) q lv 0 acc = a2b_loop tail q' lv' 0 acc') ∧
      q' = (q + l.length) % 4
  | [], _, q, lv, acc, hq =>
    ⟨q, lv, acc, fun _ => rfl, by simpa using (Nat.mod_eq_of_lt hq).symm⟩
  | c :: l', h, q, lv, acc, hq => by
    have hc : (b64val c).isSome := h c (List.mem_cons_self c l')
    obtain ⟨v, hv⟩ := Option.isSome_iff_exists.mp hc
    have hnone : b64val '=' = none := by decide
    have hne : ¬ c = '=' := by
      intro he
      rw [he, hnone] at hv
      cases hv
    have h' : ∀ c' ∈ l', (b64val c').isSome := fun c' hm => h c' (List.mem_cons_of_mem c hm)
    match q, hq with
    | 0, _ =>
      obtain ⟨q', lv', acc', hs, hq'⟩ := a2b_loop_alpha l' h' 1 v acc (by omega)
      exact ⟨q', lv', acc',
        fun tail => by rw [List.cons_append, a2b_loop, if_neg hne, hv]; exact hs tail,
        by subst hq'; simp only [List.length_cons]; omega⟩
    | 1, _ =>
      obtain ⟨q', lv', acc', hs, hq'⟩ :=
        a2b_loop_alpha l' h' 2 (v % 16) ((lv * 4 + v / 16) :: acc) (by omega)
      exact ⟨q', lv', acc',
        fun tail => by rw [List.cons_append, a2b_loop, if_neg hne, hv]; exact hs tail,
        by subst hq'; simp only [List.length_cons]; omega⟩
    | 2, _ =>
      obtain ⟨q', lv', acc', hs, hq'⟩ :=
        a2b_loop_alpha l' h' 3 (v % 4) ((lv * 16 + v / 4) :: acc) (by omega)
      exact ⟨q', lv', acc',
        fun tail => by rw [List.cons_append, a2b_loop, if_neg hne, hv]; exact hs tail,
        by subst hq'; simp only [List.length_cons]; omega⟩
    | 3, _ =>
      obtain ⟨q', lv', acc', hs, hq'⟩ :=
        a2b_loop_alpha l' h' 0 0 ((lv * 64 + v) :: acc) (by omega)
      exact ⟨q', lv', acc',
        fun tail => by rw [List.cons_append, a2b_loop, if_neg hne, hv]; exact hs tail,
        by subst hq'; simp only [List.length_cons]; omega⟩

/-- C3 (amended): `decode_body` never raises on input made of base64url
alphabet characters whose length is not congruent to 1 mod 4 — in particular
on any valid base64url encoding missing its 1–3 padding characters; missing
padding is computed, and non-UTF-8 bytes are dropped by the lossy decode. -/
theorem decode_body_total_on_alphabet (data : List Char)
    (halpha : ∀ c ∈ data, (b64val c).isSome)
    (hlen : data.length % 4 ≠ 1) :
    ∃ s, decode_body data = .ok s := by
  cases hB : data.isEmpty with
  | true => exact ⟨[], by simp [decode_body, hB]⟩
  | false =>
    obtain ⟨q', lv', acc', hstep, hq'⟩ := a2b_loop_alpha data halpha 0 0 [] (by omega)
    rw [Nat.zero_add] at hq'
    unfold decode_body
    rw [hB]
    simp only [Bool.false_eq_true, if_false]
    rw [hstep (List.replicate ((4 - data.length % 4) % 4) '=')]
    have h03 : data.length % 4 = 0 ∨ data.length % 4 = 2 ∨ data.length % 4 = 3 := by omega
    rcases h03 with h | h | h
    all_goals rw [h] at hq'; subst hq'; rw [h]; norm_num
    · exact ⟨utf8DecodeIgnore acc'.reverse, rfl⟩
    · exact ⟨utf8DecodeIgnore acc'.reverse, by simp [a2b_loop]⟩
    · exact ⟨utf8DecodeIgnore acc'.reverse, by simp [a2b_loop]⟩

/-- Counterexample for C3 as stated: `decode_body` is not total on every
input string — on `"a"` (one alphabet character, length 1 mod 4) the
computed padding `"==="` cannot complete the quadruple and
`binascii.a2b_base64` raises `binascii.Error`. -/
theorem decode_body_raises_on_lone_char : decode_body ['a'] = .error () := rfl

/-- Witness for C3 (amended) at the padding-stripped encoding of `"hi"`. -/
theorem decode_body_total_on_alphabet_witness :
    (∀ c ∈ "aGk".toList, (b64val c).isSome) ∧ "aGk".toList.length % 4 ≠ 1 ∧
    ∃ s, decode_body "aGk".toList = .ok s :=
  ⟨by decide, by decide, decode_body_total_on_alphabet "aGk".toList (by decide) (by decide)⟩

/-! ## C9 — image prompt builder

Two parts of the claim fail on the code.  The tag-stripping regex
`^[\[【(].*?[\]】)]\s*` pairs any opener with any closer, not with its
corresponding one, so `"[Tech】…"` is also stripped; and the summary is
embedded verbatim (collapsed, capped) in the prompt, so a summary containing
`"【Tech】"` puts that substring into the prompt even though it was stripped
from the subject. -/

/-- Counterexample for C9 as stated: the prompt built from subject
`"【Tech】Big news today"` and summary `"【Tech】"` does contain `"【Tech】"`
(the claim says it never does for any summary), and a mismatched-delimiter
tag `"[Tech】"` is stripped even though `】` is not the closer corresponding
to `[`. -/
theorem build_image_prompt_counterexample :
    containsSeq techTag (build_image_prompt techSubject techTag) = true ∧
    strip_category_tag "[Tech】Big news today".toList = "Big news today".toList :=
  ⟨by decide, by decide⟩

/-- An occurrence of a needle starting with `c` in `A ++ B` where `c` does not
occur in `A` lies entirely within `B`. -/
theorem containsSeq_append_of_head_notin (c : Char) (nt : List Char) :
    ∀ (A B : List Char), (∀ a ∈ A, a ≠ c) →
      containsSeq (c :: nt) (A ++ B) = true → containsSeq (c :: nt) B = true
  | [], B, _, h => h
  | a :: A', B, hA, h => by
    rw [List.cons_append, containsSeq, Bool.or_eq_true] at h
    cases h with
    | inl hpref =>
      exfalso
      simp only [List.isPrefixOf, Bool.and_eq_true, beq_iff_eq] at hpref
      exact hA a (List.mem_cons_self a A') hpref.1.symm
    | inr h' =>
      exact containsSeq_append_of_head_notin c nt A' B
        (fun x hx => hA x (List.mem_cons_of_mem a hx)) h'

/-- The closer reachable by the non-greedy `.*?` match: the first closer in
`mid ++ c :: rest` sits right after `mid`. -/
theorem findCloser_append : ∀ (mid : List Char) (c : Char) (rest : List Char),
    c ∈ promptClosers → (∀ x ∈ mid, x ∉ promptClosers ∧ x ≠ '\n') →
    findCloser (mid ++ c :: rest) = some mid.length
  | [], c, rest, hc, _ => by simp [findCloser, hc]
  | x :: mid', c, rest, hc, hmid => by
    have hx := hmid x (List.mem_cons_self x mid')
    rw [List.cons_append, findCloser, if_neg hx.1, if_neg hx.2,
      findCloser_append mid' c rest hc
        (fun y hy => hmid y (List.mem_cons_of_mem x hy))]
    simp

/-- C9 (amended): the subject tag is stripped when delimited by one of
`[`,`【`,`(` and ANY one of the closers `]`,`】`,`)` (then optional
whitespace) — not only the corresponding one; the collapsed summary is capped
at 400 characters with no marker; and for subject `"【Tech】Big news today"`
and any summary whose collapsed, capped form does not contain `"【Tech】"`,
the returned prompt does not contain `"【Tech】"`. -/
theorem build_image_prompt_amended (summary : List Char) (o : Char)
    (mid : List Char) (c : Char) (rest : List Char)
    (ho : o ∈ catOpeners) (hc : c ∈ promptClosers)
    (hmid : ∀ x ∈ mid, x ∉ promptClosers ∧ x ≠ '\n')
    (hsum : containsSeq techTag (capSummary summary) = false) :
    strip_category_tag (o :: (mid ++ c :: rest)) = rest.dropWhile pyWs ∧
    (capSummary summary).length ≤ 400 ∧
    (400 < (pyCollapse summary).length →
      capSummary summary = (pyCollapse summary).take 400) ∧
    containsSeq techTag (build_image_prompt techSubject summary) = false := by
  refine ⟨?_, ?_, ?_, ?_⟩
  · rw [strip_category_tag, if_pos ho, findCloser_append mid c rest hc hmid]
    have hdrop : (mid ++ c :: rest).drop (mid.length + 1) = rest := by
      rw [← List.drop_drop 1 mid.length, List.drop_left]
      rfl
    show List.dropWhile pyWs (List.drop (mid.length + 1) (mid ++ c :: rest))
      = List.dropWhile pyWs rest
    rw [hdrop]
  · unfold capSummary
    by_cases h : 400 < (pyCollapse summary).length
    · rw [if_pos h, List.length_take]
      omega
    · rw [if_neg h]
      omega
  · intro h
    unfold capSummary
    rw [if_pos h]
  · have hsplit : build_image_prompt techSubject summary
        = techPromptPre ++ capSummary summary := rfl
    cases hcontains : containsSeq techTag (build_image_prompt techSubject summary) with
    | false => rfl
    | true =>
      exfalso
      rw [hsplit] at hcontains
      have h2 := containsSeq_append_of_head_notin '【' "Tech】".toList techPromptPre
        (capSummary summary) (by decide) hcontains
      exact absurd (show containsSeq techTag (capSummary summary) = true from h2)
        (by simp [hsum])

/-- Witness for C9 (amended) at concrete inputs. -/
theorem build_image_prompt_amended_witness :
    strip_category_tag ('[' :: ("Tech".toList ++ '】' :: "News".toList))
      = "News".toList.dropWhile pyWs ∧
    (capSummary "ok".toList).length ≤ 400 ∧
    (400 < (pyCollapse "ok".toList).length →
      capSummary "ok".toList = (pyCollapse "ok".toList).take 400) ∧
    containsSeq techTag (build_image_prompt techSubject "ok".toList) = false :=
  build_image_prompt_amended "ok".toList '[' "Tech".toList '】' "News".toList
    (by decide) (by decide) (by decide) (by decide)

/-! ## C5 — normalizer idempotence within the cap

Lemma kit: `squeezeWs` produces `wsClean` output, is the identity on
`wsClean` input, and `wsClean` survives stripping; stripping is idempotent. -/

/-- `squeezeWs` keeps a leading non-whitespace character. -/
theorem sq_cons_nonws (c : Char) (t : List Char) (h : pyWs c = false) :
    squeezeWs (c :: t) = c :: squeezeWs t := by
  cases t with
  | nil => simp [squeezeWs, h]
  | cons d rest => simp [squeezeWs, h]

/-- The output of `squeezeWs` is whitespace-clean. -/
theorem sq_clean : ∀ l, wsClean (squeezeWs l) = true
  | [] => rfl
  | [c] => by by_cases h : pyWs c <;> simp [squeezeWs, wsClean, h]
  | c :: d :: rest => by
    by_cases h1 : pyWs c
    · by_cases h2 : pyWs d
      · rw [squeezeWs, if_pos h1, if_pos h2]
        exact sq_clean (d :: rest)
      · have h2' : pyWs d = false := by simpa using h2
        have hX := sq_clean (d :: rest)
        rw [squeezeWs, if_pos h1, if_neg h2, sq_cons_nonws d rest h2']
        rw [sq_cons_nonws d rest h2'] at hX
        simp [wsClean, h2', hX]
    · have h1' : pyWs c = false := by simpa using h1
      have hX := sq_clean (d :: rest)
      rw [squeezeWs, if_neg h1]
      by_cases h2 : pyWs d
      · cases hsq : squeezeWs (d :: rest) with
        | nil => simp [wsClean, h1']
        | cons e t =>
          rw [hsq] at hX
          simp [wsClean, h1', hX]
      · have h2' : pyWs d = false := by simpa using h2
        rw [sq_cons_nonws d rest h2'] at hX ⊢
        simp [wsClean, h1', hX]

/-- `squeezeWs` is the identity on whitespace-clean input. -/
theorem sq_of_clean : ∀ l, wsClean l = true → squeezeWs l = l
  | [], _ => rfl
  | [c], h => by
    by_cases hc : pyWs c
    · have : c = ' ' := by
        simpa [wsClean, hc] using h
      simp [squeezeWs, hc, this]
    · simp [squeezeWs, hc]
  | c :: d :: rest, h => by
    rw [wsClean, Bool.and_eq_true] at h
    have htail := sq_of_clean (d :: rest) h.2
    by_cases hc : pyWs c
    · have hcd : c = ' ' ∧ pyWs d = false := by
        have := h.1
        simp [hc] at this
        exact ⟨this.1, this.2⟩
      rw [squeezeWs, if_pos hc, if_neg (by simp [hcd.2]), htail, hcd.1]
    · rw [squeezeWs, if_neg hc, htail]

/-- `wsClean` survives `dropWhile pyWs` (at most one leading character is
whitespace in a clean list). -/
theorem wsClean_dropWhile : ∀ l, wsClean l = true →
    wsClean (l.dropWhile pyWs) = true
  | [], _ => rfl
  | [c], _ => by
    by_cases hc : pyWs c <;> simp [List.dropWhile, hc, wsClean]
  | c :: d :: rest, h => by
    rw [wsClean, Bool.and_eq_true] at h
    by_cases hc : pyWs c
    · have hd : pyWs d = false := by
        have := h.1
        simp [hc] at this
        exact this.2
      rw [List.dropWhile_cons_of_pos hc, List.dropWhile_cons_of_neg (by simp [hd])]
      exact h.2
    · rw [List.dropWhile_cons_of_neg hc]
      rw [wsClean, Bool.and_eq_true]
      exact h

/-- `wsClean` restricts to prefixes (append form). -/
theorem wsClean_append_left : ∀ (l t : List Char), wsClean (l ++ t) = true →
    wsClean l = true
  | [], _, _ => rfl
  | [c], t, h => by
    cases t with
    | nil => simpa using h
    | cons d t' =>
      rw [List.singleton_append, wsClean, Bool.and_eq_true] at h
      have := h.1
      by_cases hc : pyWs c
      · simp [hc] at this
        simp [wsClean, hc, this.1]
      · simp [wsClean, hc]
  | c :: d :: rest, t, h => by
    rw [List.cons_append, List.cons_append, wsClean, Bool.and_eq_true] at h
    have htail := wsClean_append_left (d :: rest) t (by
      cases rest with
      | nil => exact h.2
      | cons e rest' => exact h.2)
    rw [wsClean, Bool.and_eq_true]
    exact ⟨h.1, htail⟩

/-- `pyStripRight` yields a prefix of its argument. -/
theorem pyStripRight_pref (l : List Char) : ∃ t, pyStripRight l ++ t = l := by
  obtain ⟨s, hs⟩ := List.dropWhile_suffix (l := l.reverse) pyWs
  refine ⟨s.reverse, ?_⟩
  unfold pyStripRight
  rw [← List.reverse_append, hs, List.reverse_reverse]

/-- A non-empty `dropWhile pyWs` result starts with non-whitespace. -/
theorem dropWhile_head_false : ∀ (l : List Char) (c : Char) (t : List Char),
    l.dropWhile pyWs = c :: t → pyWs c = false
  | [], _, _, h => by cases h
  | a :: rest, c, t, h => by
    by_cases ha : pyWs a
    · rw [List.dropWhile_cons_of_pos ha] at h
      exact dropWhile_head_false rest c t h
    · rw [List.dropWhile_cons_of_neg ha] at h
      cases h
      simpa using ha

/-- `dropWhile pyWs` is idempotent. -/
theorem dropWhile_pyWs_idem (l : List Char) :
    (l.dropWhile pyWs).dropWhile pyWs = l.dropWhile pyWs := by
  cases h : l.dropWhile pyWs with
  | nil => rfl
  | cons c t =>
    exact List.dropWhile_cons_of_neg (by simp [dropWhile_head_false l c t h])

/-- `pyStripRight` is idempotent. -/
theorem pyStripRight_idem (l : List Char) :
    pyStripRight (pyStripRight l) = pyStripRight l := by
  unfold pyStripRight
  rw [List.reverse_reverse, dropWhile_pyWs_idem]

/-- Left-stripping after a right strip of an already left-stripped list is a
no-op. -/
theorem stripLeft_of_stripRight_stripLeft (l : List Char) :
    pyStripLeft (pyStripRight (pyStripLeft l)) = pyStripRight (pyStripLeft l) := by
  cases h : pyStripRight (pyStripLeft l) with
  | nil => rfl
  | cons c t =>
    obtain ⟨s, hs⟩ := pyStripRight_pref (pyStripLeft l)
    rw [h] at hs
    have hhead : pyStripLeft l = c :: (t ++ s) := by
      rw [← hs]; simp
    have hc : pyWs c = false := dropWhile_head_false l c (t ++ s) hhead
    exact List.dropWhile_cons_of_neg (by simp [hc])

/-- `pyStrip` is idempotent. -/
theorem pyStrip_idem (l : List Char) : pyStrip (pyStrip l) = pyStrip l := by
  unfold pyStrip
  rw [stripLeft_of_stripRight_stripLeft, pyStripRight_idem]

/-- Stripping preserves whitespace-cleanliness. -/
theorem wsClean_pyStrip (l : List Char) (h : wsClean l = true) :
    wsClean (pyStrip l) = true := by
  have h1 : wsClean (pyStripLeft l) = true := wsClean_dropWhile l h
  obtain ⟨t, ht⟩ := pyStripRight_pref (pyStripLeft l)
  rw [← ht] at h1
  exact wsClean_append_left _ t h1

/-- Collapsing whitespace is idempotent. -/
theorem pyCollapse_idem (l : List Char) : pyCollapse (pyCollapse l) = pyCollapse l := by
  unfold pyCollapse
  rw [sq_of_clean _ (wsClean_pyStrip _ (sq_clean l)), pyStrip_idem]

/-- C5: for every text whose length after whitespace collapse and trimming is
at most `n`, `normalize_text` is idempotent:
`normalize(normalize(text, n), n) = normalize(text, n)`. -/
theorem normalize_text_idempotent (text : List Char) (n : Nat)
    (h : (pyCollapse text).length ≤ n) :
    normalize_text (normalize_text text n) n = normalize_text text n := by
  have hinner : normalize_text text n = pyCollapse text := by
    unfold normalize_text
    rw [if_neg (Nat.not_lt.mpr h)]
  rw [hinner]
  unfold normalize_text
  rw [pyCollapse_idem, if_neg (Nat.not_lt.mpr h)]

/-- Witness for C5 at a concrete input. -/
theorem normalize_text_idempotent_witness :
    (pyCollapse " a  b ".toList).length ≤ 10 ∧
    normalize_text (normalize_text " a  b ".toList 10) 10
      = normalize_text " a  b ".toList 10 :=
  ⟨by decide, normalize_text_idempotent " a  b ".toList 10 (by decide)⟩

/-! ## C2 — extractor vs the flat spec formula

Lemma kit: `joinNonEmpty` is a fold of `glue`, `glue` is associative, joining
trimmed fragments is trimmed, and `decodeAll` distributes over append. -/

/-- A newline-join of at least two fragments, or one non-empty fragment, is
non-empty. -/
theorem joinNL_ne_nil : ∀ (l : List (List Char)), l ≠ [] → (∀ u ∈ l, u ≠ []) →
    joinNL l ≠ []
  | [], h, _ => absurd rfl h
  | [u], _, hu => by simpa [joinNL] using hu u (by simp)
  | u :: v :: rest, _, _ => by
    rw [joinNL]
    intro hcontra
    exact absurd (List.append_eq_nil.mp hcontra).2 (by simp)

/-- `glue` with an empty left block. -/
theorem glue_nil_left (b : List Char) : glue [] b = b := rfl

/-- `glue` with an empty right block. -/
theorem glue_nil_right (a : List Char) : glue a [] = a := by
  unfold glue
  by_cases ha : a.isEmpty
  · simp [ha, List.isEmpty_iff.mp ha]
  · simp [ha]

/-- `glue` of two non-empty blocks splices them with a newline. -/
theorem glue_ne_ne (a b : List Char) (ha : a ≠ []) (hb : b ≠ []) :
    glue a b = a ++ '\n' :: b := by
  unfold glue
  rw [if_neg (by simpa [List.isEmpty_iff] using ha),
    if_neg (by simpa [List.isEmpty_iff] using hb)]

/-- `joinNonEmpty` peels one fragment as a `glue`. -/
theorem joinNE_cons (x : List Char) (xs : List (List Char)) :
    joinNonEmpty (x :: xs) = glue x (joinNonEmpty xs) := by
  by_cases hx : x.isEmpty
  · have hx' : x = [] := List.isEmpty_iff.mp hx
    subst hx'
    rw [glue_nil_left]
    unfold joinNonEmpty
    rw [List.filter_cons_of_neg (by simp)]
  · unfold joinNonEmpty
    rw [List.filter_cons_of_pos (by simp [hx])]
    cases hF : xs.filter (fun b => !b.isEmpty) with
    | nil =>
      rw [show joinNL ([] : List (List Char)) = [] from rfl, glue_nil_right]
      rfl
    | cons u F' =>
      rw [joinNL]
      have hmem : ∀ w ∈ u :: F', w ≠ [] := by
        intro w hw
        have hw' : w ∈ xs.filter (fun b => !b.isEmpty) := by rw [hF]; exact hw
        have := List.of_mem_filter hw'
        simpa [List.isEmpty_iff] using this
      have hne : joinNL (u :: F') ≠ [] := joinNL_ne_nil (u :: F') (by simp) hmem
      rw [glue_ne_ne x (joinNL (u :: F')) (by simpa [List.isEmpty_iff] using hx) hne]

/-- `glue` is associative. -/
theorem glue_assoc (a b c : List Char) : glue (glue a b) c = glue a (glue b c) := by
  by_cases ha : a = []
  · subst ha; rw [glue_nil_left, glue_nil_left]
  · by_cases hb : b = []
    · subst hb; rw [glue_nil_right, glue_nil_left]
    · by_cases hc : c = []
      · subst hc; rw [glue_nil_right, glue_nil_right]
      · have hab : glue a b = a ++ '\n' :: b := glue_ne_ne a b ha hb
        have hbc : glue b c = b ++ '\n' :: c := glue_ne_ne b c hb hc
        rw [hab, hbc, glue_ne_ne _ c (by simp) hc,
          glue_ne_ne a _ ha (by simp [hb]), List.append_assoc, List.cons_append]

/-- `joinNonEmpty` distributes over append as a `glue`. -/
theorem joinNE_append : ∀ (l₁ l₂ : List (List Char)),
    joinNonEmpty (l₁ ++ l₂) = glue (joinNonEmpty l₁) (joinNonEmpty l₂)
  | [], l₂ => by rw [List.nil_append]; rfl
  | x :: l₁', l₂ => by
    rw [List.cons_append, joinNE_cons, joinNE_append l₁' l₂, joinNE_cons, glue_assoc]

/-- `joinNonEmpty` of a single fragment is that fragment. -/
theorem joinNE_singleton (s : List Char) : joinNonEmpty [s] = s := by
  by_cases hs : s.isEmpty
  · rw [List.isEmpty_iff.mp hs]; rfl
  · unfold joinNonEmpty
    rw [List.filter_cons_of_pos (by simp [hs]), List.filter_nil]
    rfl

/-- A list whose first and last characters are not whitespace is unchanged by
stripping. -/
theorem pyStrip_eq_self_of (l : List Char)
    (h1 : ∀ c, l.head? = some c → pyWs c = false)
    (h2 : ∀ c, l.getLast? = some c → pyWs c = false) : pyStrip l = l := by
  cases l with
  | nil => rfl
  | cons c t =>
    have hc : pyWs c = false := h1 c rfl
    unfold pyStrip pyStripLeft pyStripRight
    rw [List.dropWhile_cons_of_neg (by simp [hc])]
    cases hrev : (c :: t).reverse with
    | nil => exact absurd hrev (by simp)
    | cons d s =>
      have hd : pyWs d = false := h2 d (by rw [List.getLast?_eq_head?_reverse, hrev]; rfl)
      rw [List.dropWhile_cons_of_neg (by simp [hd])]
      calc (d :: s).reverse = ((c :: t).reverse).reverse := by rw [hrev]
        _ = c :: t := List.reverse_reverse _

/-- Dropping a whitespace run does not lengthen a list. -/
theorem length_dropWhile_pyWs_le (l : List Char) :
    (l.dropWhile pyWs).length ≤ l.length :=
  (List.dropWhile_sublist pyWs).length_le

/-- Right-stripping does not lengthen a list. -/
theorem pyStripRight_length_le (l : List Char) :
    (pyStripRight l).length ≤ l.length := by
  unfold pyStripRight
  simpa using length_dropWhile_pyWs_le l.reverse

/-- A whitespace head makes the strip strictly shorter, so a strip-fixed list
starts with non-whitespace. -/
theorem strip_head_nonws (l : List Char) (h : pyStrip l = l) :
    ∀ c t, l = c :: t → pyWs c = false := by
  intro c t hl
  subst hl
  by_contra hcp
  have hc : pyWs c = true := by simpa using hcp
  have h1 : (pyStripLeft (c :: t)).length ≤ t.length := by
    unfold pyStripLeft
    rw [List.dropWhile_cons_of_pos hc]
    exact length_dropWhile_pyWs_le t
  have h2 : (pyStrip (c :: t)).length ≤ (pyStripLeft (c :: t)).length :=
    pyStripRight_length_le _
  rw [h] at h2
  simp at h2
  omega

/-- A `dropWhile` result of full length is the whole list. -/
theorem dropWhile_eq_self_of_length (l : List Char)
    (h : (l.dropWhile pyWs).length = l.length) : l.dropWhile pyWs = l := by
  cases l with
  | nil => rfl
  | cons c t =>
    by_cases hc : pyWs c
    · rw [List.dropWhile_cons_of_pos hc] at h ⊢
      have := length_dropWhile_pyWs_le t
      simp at h
      omega
    · exact List.dropWhile_cons_of_neg hc

/-- A whitespace last character makes the strip strictly shorter, so a
strip-fixed list ends with non-whitespace. -/
theorem strip_last_nonws (l : List Char) (h : pyStrip l = l) :
    ∀ c, l.getLast? = some c → pyWs c = false := by
  intro c hc
  by_contra hcp
  have hcw : pyWs c = true := by simpa using hcp
  obtain ⟨s, hs⟩ : ∃ s, l.reverse = c :: s := by
    rw [List.getLast?_eq_head?_reverse] at hc
    cases hrev : l.reverse with
    | nil => rw [hrev] at hc; cases hc
    | cons d s =>
      rw [hrev] at hc
      cases hc
      exact ⟨s, rfl⟩
  by_cases hX : (pyStripLeft l).length = l.length
  · have hXl : pyStripLeft l = l := dropWhile_eq_self_of_length l hX
    have hlen : (pyStrip l).length ≤ s.length := by
      unfold pyStrip
      rw [hXl]
      unfold pyStripRight
      rw [hs, List.dropWhile_cons_of_pos hcw]
      simpa using length_dropWhile_pyWs_le s
    rw [h] at hlen
    have : l.length = s.length + 1 := by
      rw [← List.length_reverse l, hs]
      rfl
    omega
  · have h1 : (pyStripLeft l).length ≤ l.length := length_dropWhile_pyWs_le l
    have h2 : (pyStrip l).length ≤ (pyStripLeft l).length := pyStripRight_length_le _
    rw [h] at h2
    omega

/-- Gluing two trimmed blocks yields a trimmed block. -/
theorem strip_glue (a b : List Char) (ha : pyStrip a = a) (hb : pyStrip b = b) :
    pyStrip (glue a b) = glue a b := by
  by_cases hA : a = []
  · subst hA; rw [glue_nil_left]; exact hb
  · by_cases hB : b = []
    · subst hB; rw [glue_nil_right]; exact ha
    · rw [glue_ne_ne a b hA hB]
      apply pyStrip_eq_self_of
      · intro c hc
        cases a with
        | nil => exact absurd rfl hA
        | cons x t =>
          rw [List.cons_append] at hc
          have hxc : x = c := by simpa using hc
          subst hxc
          exact strip_head_nonws _ ha x t rfl
      · intro c hc
        cases b with
        | nil => exact absurd rfl hB
        | cons e b' =>
          rw [List.getLast?_append, List.getLast?_cons_cons] at hc
          obtain ⟨c', hc'⟩ : ∃ c', (e :: b').getLast? = some c' := by
            cases hgl : (e :: b').getLast? with
            | none => exact absurd (List.getLast?_eq_none_iff.mp hgl) (by simp)
            | some c' => exact ⟨c', rfl⟩
          rw [hc'] at hc
          simp [Option.or] at hc
          rw [← hc]
          exact strip_last_nonws _ hb c' hc'

/-- A newline-join of trimmed fragments is trimmed. -/
theorem strip_joinNE : ∀ (ts : List (List Char)), (∀ t ∈ ts, pyStrip t = t) →
    pyStrip (joinNonEmpty ts) = joinNonEmpty ts
  | [], _ => rfl
  | x :: ts', h => by
    rw [joinNE_cons]
    exact strip_glue x (joinNonEmpty ts') (h x (by simp))
      (strip_joinNE ts' (fun t ht => h t (by simp [ht])))

/-- `decodeAll` distributes over append, propagating the first failure. -/
theorem decodeAll_append : ∀ (l₁ l₂ : List (List Char)),
    decodeAll (l₁ ++ l₂) =
      match decodeAll l₁ with
      | .error e => .error e
      | .ok a =>
        match decodeAll l₂ with
        | .error e => .error e
        | .ok b => .ok (a ++ b)
  | [], l₂ => by
    rw [List.nil_append]
    show decodeAll l₂ = match decodeAll l₂ with
      | .error e => .error e
      | .ok b => .ok ([] ++ b)
    cases decodeAll l₂ <;> simp
  | b :: l₁', l₂ => by
    rw [List.cons_append, decodeAll, decodeAll]
    cases hdb : decode_body b with
    | error e => rfl
    | ok s =>
      rw [decodeAll_append l₁' l₂]
      cases decodeAll l₁' with
      | error e => rfl
      | ok a => cases decodeAll l₂ <;> rfl

/-- Bodies passing `trimOKB` decode to trimmed strings. -/
theorem decodeAll_trimmed : ∀ (l bs : List (List Char)),
    decodeAll l = .ok bs → l.all trimOKB = true → ∀ s ∈ bs, pyStrip s = s
  | [], bs, h, _, s, hs => by
    cases h
    simp at hs
  | b :: l', bs, h, hall, s, hs => by
    rw [decodeAll] at h
    rw [List.all_cons, Bool.and_eq_true] at hall
    cases hdb : decode_body b with
    | error e => rw [hdb] at h; cases h
    | ok s0 =>
      rw [hdb] at h
      cases hd : decodeAll l' with
      | error e => rw [hd] at h; cases h
      | ok ss =>
        rw [hd] at h
        cases h
        rcases List.mem_cons.mp hs with rfl | hmem
        · have := hall.1
          unfold trimOKB at this
          rw [hdb] at this
          simpa using this
        · exact decodeAll_trimmed l' ss hd hall.2 s hmem

/-- Core induction for the extractor claim: on an all-`text/plain` tree with
trimmed decoded bodies, the extractor computes the flat formula (without the
final trim, which the second conjunct shows redundant), and its successful
output is always trimmed. -/
theorem extract_spec : ∀ (n : Nat) (p : Part), sizeOf p ≤ n →
    allPlainB p = true → trimmedBodiesB p = true →
    (extract_text_from_payload p =
      (match decodeAll (specPlainBodies p) with
        | .ok bs => .ok (joinNonEmpty bs)
        | .error e => (.error e : Except Unit (List Char)))) ∧
    (∀ t, extract_text_from_payload p = .ok t → pyStrip t = t)
  | 0, Part.mk mt bd ps, hsz, _, _ => by
    exfalso
    rw [Part.mk.sizeOf_spec] at hsz
    omega
  | n + 1, Part.mk mt bd ps, hsz, hplain, htrim => by
    by_cases hmt : mt = "text/plain".toList
    · have hbodies : specPlainBodies (Part.mk mt bd ps) = [bd] := by
        rw [specPlainBodies, if_pos hmt]
      have hext : extract_text_from_payload (Part.mk mt bd ps) = decode_body bd := by
        rw [extract_text_from_payload, if_pos hmt]
      have htr : trimOKB bd = true := by
        unfold trimmedBodiesB at htrim
        rw [hbodies] at htrim
        simpa using htrim
      rw [hext, hbodies]
      cases hdb : decode_body bd with
      | error e =>
        refine ⟨?_, ?_⟩
        · rw [decodeAll, hdb]
        · intro t ht
          simp at ht
      | ok s =>
        have hst : pyStrip s = s := by
          unfold trimOKB at htr
          rw [hdb] at htr
          simpa using htr
        refine ⟨?_, ?_⟩
        · rw [decodeAll, hdb]
          show Except.ok s =
            (match (match decodeAll [] with
              | .error e => (.error e : Except Unit (List (List Char)))
              | .ok ss => .ok (s :: ss)) with
              | .ok bs => (.ok (joinNonEmpty bs) : Except Unit (List Char))
              | .error e => .error e)
          show Except.ok s = .ok (joinNonEmpty [s])
          rw [joinNE_singleton]
        · intro t ht
          obtain rfl := Except.ok.inj ht
          exact hst
    · by_cases hhtml : mt = "text/html".toList
      · exfalso
        rw [allPlainB, if_neg hmt, if_pos hhtml] at hplain
        exact absurd hplain (by simp)
      · have hbodies : specPlainBodies (Part.mk mt bd ps) = specPlainBodiesList ps := by
          rw [specPlainBodies, if_neg hmt, if_neg hhtml]
        have hext : extract_text_from_payload (Part.mk mt bd ps) =
            (match extractParts ps with
              | .ok texts =>
                .ok (pyStrip (joinNL (texts.filter fun t => !(pyStrip t).isEmpty)))
              | .error e => .error e) := by
          rw [extract_text_from_payload, if_neg hmt, if_neg hhtml]
        have hallList : allPlainListB ps = true := by
          rw [allPlainB, if_neg hmt, if_neg hhtml] at hplain
          exact hplain
        have htrimList : (specPlainBodiesList ps).all trimOKB = true := by
          unfold trimmedBodiesB at htrim
          rw [hbodies] at htrim
          exact htrim
        have hszList : ∀ q ∈ ps, sizeOf q ≤ n := by
          intro q hq
          have h1 : sizeOf q < sizeOf ps := List.sizeOf_lt_of_mem hq
          rw [Part.mk.sizeOf_spec] at hsz
          omega
        have hlist : ∀ (ps' : List Part), (∀ q ∈ ps', sizeOf q ≤ n) →
            allPlainListB ps' = true → (specPlainBodiesList ps').all trimOKB = true →
            (extractParts ps' = .error () ∧
              decodeAll (specPlainBodiesList ps') = .error ()) ∨
            (∃ ts bs, extractParts ps' = .ok ts ∧
              decodeAll (specPlainBodiesList ps') = .ok bs ∧
              (∀ t ∈ ts, pyStrip t = t) ∧ joinNonEmpty ts = joinNonEmpty bs) := by
          intro ps'
          induction ps' with
          | nil =>
            intro _ _ _
            right
            exact ⟨[], [], rfl, rfl, by simp, rfl⟩
          | cons q rest ih =>
            intro hsz' hall' htrim'
            rw [allPlainListB, Bool.and_eq_true] at hall'
            rw [specPlainBodiesList, List.all_append, Bool.and_eq_true] at htrim'
            obtain ⟨hq1, hq2⟩ := extract_spec n q (hsz' q (by simp)) hall'.1 htrim'.1
            cases hd : decodeAll (specPlainBodies q) with
            | error e =>
              cases e
              rw [hd] at hq1
              have hq1' : extract_text_from_payload q = .error () := by rw [hq1]
              have hep : extractParts (q :: rest) = .error () := by
                rw [extractParts, hq1']
              have hda : decodeAll (specPlainBodiesList (q :: rest)) = .error () := by
                rw [specPlainBodiesList, decodeAll_append, hd]
              exact Or.inl ⟨hep, hda⟩
            | ok bs₁ =>
              rw [hd] at hq1
              have hq1' : extract_text_from_payload q = .ok (joinNonEmpty bs₁) := by
                rw [hq1]
              have htq : pyStrip (joinNonEmpty bs₁) = joinNonEmpty bs₁ := hq2 _ hq1'
              rcases ih (fun q' h' => hsz' q' (by simp [h'])) hall'.2 htrim'.2 with
                ⟨he, hde⟩ | ⟨ts, bs₂, h1, h2, h3, h4⟩
              · have hep : extractParts (q :: rest) = .error () := by
                  rw [extractParts, hq1', he]
                have hda : decodeAll (specPlainBodiesList (q :: rest)) = .error () := by
                  rw [specPlainBodiesList, decodeAll_append, hd, hde]
                exact Or.inl ⟨hep, hda⟩
              · have hep : extractParts (q :: rest) = .ok (joinNonEmpty bs₁ :: ts) := by
                  rw [extractParts, hq1', h1]
                have hda : decodeAll (specPlainBodiesList (q :: rest))
                    = .ok (bs₁ ++ bs₂) := by
                  rw [specPlainBodiesList, decodeAll_append, hd, h2]
                refine Or.inr ⟨joinNonEmpty bs₁ :: ts, bs₁ ++ bs₂, hep, hda, ?_, ?_⟩
                · intro t ht
                  rcases List.mem_cons.mp ht with rfl | hm
                  · exact htq
                  · exact h3 t hm
                · rw [joinNE_cons, h4, joinNE_append]
        rw [hext, hbodies]
        rcases hlist ps hszList hallList htrimList with
          ⟨he, hde⟩ | ⟨ts, bs, h1, h2, h3, h4⟩
        · rw [he, hde]
          refine ⟨rfl, ?_⟩
          intro t ht
          simp at ht
        · rw [h1, h2]
          have hfilter : ts.filter (fun t => !(pyStrip t).isEmpty)
              = ts.filter (fun b => !b.isEmpty) := by
            apply List.filter_congr
            intro t ht
            rw [h3 t ht]
          refine ⟨?_, ?_⟩
          · show Except.ok (pyStrip (joinNL (ts.filter fun t => !(pyStrip t).isEmpty)))
              = .ok (joinNonEmpty bs)
            rw [hfilter]
            show Except.ok (pyStrip (joinNonEmpty ts)) = .ok (joinNonEmpty bs)
            rw [strip_joinNE ts h3, h4]
          · intro t ht
            have hinj := Except.ok.inj ht
            rw [← hinj, pyStrip_idem]

/-- C2 (amended): for every Part tree whose recognized leaves are all
`text/plain` and whose decoded leaf bodies carry no leading or trailing
whitespace, the extractor's output equals the newline-joined, trimmed
concatenation of the decoded leaf bodies in document order with empty
fragments dropped (and for a tree with no recognized leaves, the empty
string, the `bs = []` instance of the formula). -/
theorem extract_matches_spec (p : Part) (hplain : allPlainB p = true)
    (htrim : trimmedBodiesB p = true) :
    extract_text_from_payload p = specExtract p := by
  obtain ⟨h1, h2⟩ := extract_spec (sizeOf p) p le_rfl hplain htrim
  unfold specExtract
  cases hd : decodeAll (specPlainBodies p) with
  | error e =>
    rw [hd] at h1
    rw [h1]
  | ok bs =>
    rw [hd] at h1
    have h1' : extract_text_from_payload p = .ok (joinNonEmpty bs) := by rw [h1]
    rw [h1']
    unfold trimmedBodiesB at htrim
    have htr : ∀ s ∈ bs, pyStrip s = s := decodeAll_trimmed _ _ hd htrim
    show Except.ok (joinNonEmpty bs) = .ok (pyStrip (joinNonEmpty bs))
    rw [strip_joinNE bs htr]

/-- Counterexample for C2 as stated: on the single `text/plain` leaf whose
body decodes to `" hi "` the extractor returns the decoded body untrimmed,
while the claim's formula trims it. -/
theorem extract_counterexample :
    extract_text_from_payload (Part.mk "text/plain".toList "IGhpIA==".toList [])
      = .ok " hi ".toList ∧
    specExtract (Part.mk "text/plain".toList "IGhpIA==".toList [])
      = .ok "hi".toList ∧
    extract_text_from_payload (Part.mk "text/plain".toList "IGhpIA==".toList [])
      ≠ specExtract (Part.mk "text/plain".toList "IGhpIA==".toList []) := by
  refine ⟨rfl, rfl, ?_⟩
  intro h
  have h' : (Except.ok " hi ".toList : Except Unit (List Char)) = .ok "hi".toList := h
  exact absurd (Except.ok.inj h') (by decide)

/-- Witness for C2 (amended) at a concrete two-leaf tree. -/
theorem extract_matches_spec_witness :
    allPlainB (Part.mk "multipart/alternative".toList []
      [Part.mk "text/plain".toList "aGk".toList [],
       Part.mk "text/plain".toList [] []]) = true ∧
    trimmedBodiesB (Part.mk "multipart/alternative".toList []
      [Part.mk "text/plain".toList "aGk".toList [],
       Part.mk "text/plain".toList [] []]) = true ∧
    extract_text_from_payload (Part.mk "multipart/alternative".toList []
      [Part.mk "text/plain".toList "aGk".toList [],
       Part.mk "text/plain".toList [] []])
      = specExtract (Part.mk "multipart/alternative".toList []
        [Part.mk "text/plain".toList "aGk".toList [],
         Part.mk "text/plain".toList [] []]) :=
  ⟨by decide, by decide, extract_matches_spec _ (by decide) (by decide)⟩

end CodexRSS
